import Mathlib

/-
Verification development for the BinanceUSBot training scripts.

The Python source is embedded shallowly over the rationals: every numeric
quantity of the scripts (prices, volumes, equity, rewards, fees) is a ℚ,
stateful methods of `TradingEnvironment` become explicit state-passing
functions on an `Env` record, and pandas/numpy array operations become
`List ℚ` operations.  The single operation that has no exact rational
counterpart is `np.std` (a real square root); every definition that needs
it is parametrised by a function `sq : ℚ → ℚ` standing for the square root
of a population variance, and the theorems below hold for every such `sq`.
-/

namespace BinanceBot

/-- Mean of a list of rationals, as computed by `np.mean` (sum divided by
length; the empty list is never passed by the embedded call sites). -/
def npMean (xs : List ℚ) : ℚ := xs.sum / (xs.length : ℚ)

/-- Population variance of a list, the quantity whose square root `np.std`
returns. -/
def npVariance (xs : List ℚ) : ℚ :=
  npMean (xs.map (fun x => (x - npMean xs) ^ 2))

/-- Last `n` elements of a list, as the Python slice `xs[-n:]` (the whole
list when it is shorter than `n`). -/
def lastN (n : ℕ) (xs : List ℚ) : List ℚ := xs.drop (xs.length - n)

/-- Minimum of a list as `np.min`; the Python call raises on an empty
array, which the embedded call sites never pass, so the default 0 for `[]`
is never observed by the theorems. -/
def listMin : List ℚ → ℚ
  | [] => 0
  | h :: t => t.foldl min h

/-- Maximum of a list as `np.max`, with the same empty-list convention as
`listMin`. -/
def listMax : List ℚ → ℚ
  | [] => 0
  | h :: t => t.foldl max h

/-- TradingEnvironment.normalize: min-max scaling of an array to [-1, 1],
returning the all-zero vector when the range is zero. -/
def normalize (values : List ℚ) : List ℚ :=
  let min_val := listMin values
  let max_val := listMax values
  let range_val := max_val - min_val
  if range_val = 0 then values.map (fun _ => 0)
  else values.map (fun v => 2 * (v - min_val) / range_val - 1)

/-- TradingEnvironment.calculate_rsi with its default period 14 (the only
period the script uses). -/
def calculate_rsi (prices : List ℚ) : ℚ :=
  let period : ℕ := 14
  if prices.length < period + 1 then 50
  else
    let changes := List.zipWith (fun nxt prev => nxt - prev) prices.tail prices
    let gains := changes.filter (fun c => 0 < c)
    let losses := (changes.filter (fun c => c < 0)).map (fun c => -c)
    let avg_gain := if gains.length > 0 then npMean gains else 0
    let avg_loss := if losses.length > 0 then npMean losses else 0
    if avg_loss = 0 then 100
    else
      let rs := avg_gain / avg_loss
      100 - 100 / (1 + rs)

/-- Last value of `pd.Series(xs).ewm(span).mean()` with the default
`adjust=True`: the weighted mean with weights `(1-α)^i` over the reversed
series, `α = 2/(span+1)`. -/
def ewmMeanLast (span : ℚ) (xs : List ℚ) : ℚ :=
  let α := 2 / (span + 1)
  let rev := xs.reverse
  let weights := (List.range rev.length).map (fun i => (1 - α) ^ i)
  (List.zipWith (fun w x => w * x) weights rev).sum / weights.sum

/-- TradingEnvironment.calculate_macd: `(0, 0)` on fewer than 26 prices,
otherwise the EWM(12)/EWM(26) difference over the last price, and a signal
equal to 0.9 of the macd value. -/
def calculate_macd (prices : List ℚ) : ℚ × ℚ :=
  if prices.length < 26 then (0, 0)
  else
    let ema12 := ewmMeanLast 12 prices
    let ema26 := ewmMeanLast 26 prices
    let macd := (ema12 - ema26) / prices.getLastD 0
    (macd, macd * (9 / 10))

/-- One OHLCV row as the environment reads it: unix timestamp, close and
volume (the other columns are never used by the environment). -/
structure Candle where
  unix : ℤ
  close : ℚ
  volume : ℚ
deriving DecidableEq

/-- Default candle used only to give the `List.getD` lookups a value;
the Python `iloc` would raise out of range, which no embedded theorem
exercises. -/
def defaultCandle : Candle := ⟨0, 0, 0⟩

/-- One funding-rate row: timestamp and last funding rate. -/
structure FundingRecord where
  unix : ℤ
  last_funding_rate : ℚ
deriving DecidableEq

/-- One VWAP row: timestamp (already converted to unix millis) and vwap. -/
structure VwapRecord where
  unix : ℤ
  vwap : ℚ
deriving DecidableEq

/-- Position side: the script stores the strings LONG and SHORT. -/
inductive Side where
  | LONG
  | SHORT
deriving DecidableEq

/-- Open position record, as the dict the script builds on BUY and SELL. -/
structure Position where
  side : Side
  entry_price : ℚ
  quantity : ℚ
  entry_step : ℕ
deriving DecidableEq

/-- Configuration fields of CONFIG that the environment and the training
loop read. -/
structure Config where
  lookback_period : ℕ
  max_steps : ℕ
  initial_equity : ℚ
  fee_rate : ℚ
  state_dim : ℕ
  early_stopping_patience : ℕ
  checkpoint_interval : ℕ
  min_improvement : ℚ
  episodes : ℕ
deriving DecidableEq

/-- The script's global CONFIG with the values the environment and trainer
use (0.00075 = 3/4000, 0.01 = 1/100). -/
def CONFIG : Config :=
  { lookback_period := 20
    max_steps := 500
    initial_equity := 10000
    fee_rate := 3 / 4000
    state_dim := 17
    early_stopping_patience := 20
    checkpoint_interval := 10
    min_improvement := 1 / 100
    episodes := 500 }

/-- Full environment state: the three data frames, the config, and the
mutable fields of `TradingEnvironment`. -/
structure Env where
  ohlcv : List Candle
  funding : List FundingRecord
  vwap : List VwapRecord
  config : Config
  current_idx : ℕ
  equity : ℚ
  peak_equity : ℚ
  position : Option Position
  steps : ℕ

/-- TradingEnvironment.calculate_pnl: unrealized PnL of the open position
at `current_price`, 0 when flat. -/
def calculate_pnl (env : Env) (current_price : ℚ) : ℚ :=
  match env.position with
  | none => 0
  | some pos =>
    match pos.side with
    | Side.LONG => (current_price - pos.entry_price) * pos.quantity
    | Side.SHORT => (pos.entry_price - current_price) * pos.quantity

/-- TradingEnvironment.get_total_equity: cash equity plus unrealized PnL. -/
def get_total_equity (env : Env) (current_price : ℚ) : ℚ :=
  env.equity + calculate_pnl env current_price

/-- TradingEnvironment.get_funding_rate: the first funding row matching the
timestamp, scaled by 1000; 0 when none matches. -/
def get_funding_rate (env : Env) (ts : ℤ) : ℚ :=
  match env.funding.find? (fun r => r.unix = ts) with
  | some r => r.last_funding_rate * 1000
  | none => 0

/-- TradingEnvironment.get_funding_trend: mean funding rate over the rows
of the trailing seven days, scaled by 1000; 0 when the window is empty. -/
def get_funding_trend (env : Env) (ts : ℤ) : ℚ :=
  let seven_days_ago := ts - (7 * 24 * 60 * 60 * 1000)
  let recent := env.funding.filter (fun r => seven_days_ago ≤ r.unix)
  if recent.length > 0 then npMean (recent.map (fun r => r.last_funding_rate)) * 1000
  else 0

/-- TradingEnvironment.get_vwap_deviation: percentage deviation of the
price from the vwap row matching the timestamp; 0 when none matches. -/
def get_vwap_deviation (env : Env) (ts : ℤ) (current_price : ℚ) : ℚ :=
  match env.vwap.find? (fun r => r.unix = ts) with
  | some r => ((current_price - r.vwap) / r.vwap) * 100
  | none => 0

/-- TradingEnvironment.get_state: the 17-feature observation vector.
`sq` stands for the square root inside `np.std` (the only non-rational
operation).  The script also computes a position side and a position
duration, but neither enters the state vector. -/
def get_state (sq : ℚ → ℚ) (env : Env) : List ℚ :=
  let lookback := env.config.lookback_period
  let start := env.current_idx - lookback
  let candles := (env.ohlcv.drop start).take (env.current_idx + 1 - start)
  let prices := candles.map (fun c => c.close)
  let normalized_prices := normalize prices
  let returns0 := List.zipWith (fun nxt prev => (nxt - prev) / prev) prices.tail prices
  let returns := List.replicate (lookback - returns0.length) (0 : ℚ) ++ returns0
  let volumes := candles.map (fun c => c.volume)
  let normalized_volumes := normalize volumes
  let rsi := calculate_rsi prices / 100
  let ms := calculate_macd prices
  let current_time := (env.ohlcv.getD env.current_idx defaultCandle).unix
  let current_price := prices.getLastD 0
  let funding_rate := get_funding_rate env current_time
  let funding_trend := get_funding_trend env current_time
  let vwap_deviation := get_vwap_deviation env current_time current_price
  let order_flow : ℚ := 0
  let correlation : ℚ := 1 / 2
  let has_position : ℚ := if env.position.isSome then 1 else 0
  let position_pnl : ℚ :=
    if env.position.isSome then calculate_pnl env current_price / env.config.initial_equity
    else 0
  let total_equity := get_total_equity env current_price
  let normalized_equity := (total_equity - env.config.initial_equity) / env.config.initial_equity
  let drawdown := (env.peak_equity - total_equity) / env.peak_equity
  [ normalized_prices.getLastD 0,
    returns.getLastD 0,
    normalized_volumes.getLastD 0,
    if 5 ≤ returns.length then npMean (lastN 5 returns) else 0,
    if 5 ≤ returns.length then sq (npVariance (lastN 5 returns)) else 0,
    rsi,
    ms.1,
    ms.2,
    funding_rate,
    funding_trend,
    vwap_deviation,
    order_flow,
    correlation,
    has_position,
    position_pnl,
    normalized_equity,
    drawdown ]

/-- TradingEnvironment.reset: back to the start of the series with the
initial equity and no position. -/
def reset (env : Env) : Env :=
  { env with
    current_idx := env.config.lookback_period
    equity := env.config.initial_equity
    peak_equity := env.config.initial_equity
    position := none
    steps := 0 }

/-- State vector that `reset` returns. -/
def resetState (sq : ℚ → ℚ) (env : Env) : List ℚ := get_state sq (reset env)

/-- Close price at the current index, the `current_price` read at the top
of TradingEnvironment.step. -/
def stepPrice (env : Env) : ℚ :=
  (env.ohlcv.getD env.current_idx defaultCandle).close

/-- Action-execution phase of TradingEnvironment.step (the if/elif chain):
returns the updated environment and the reward set by an explicit CLOSE.
Actions are the integers of the script: 0 HOLD, 1 BUY, 2 SELL, 3 CLOSE. -/
def execAction (env : Env) (action : ℕ) : Env × ℚ :=
  let current_price := stepPrice env
  if action = 1 ∧ env.position.isNone then
    ({ env with
        position := some
          { side := Side.LONG
            entry_price := current_price
            quantity := env.equity * (19 / 20) / current_price
            entry_step := env.steps }
        equity := env.equity - env.equity * (19 / 20) * env.config.fee_rate }, 0)
  else if action = 2 ∧ env.position.isNone then
    ({ env with
        position := some
          { side := Side.SHORT
            entry_price := current_price
            quantity := env.equity * (19 / 20) / current_price
            entry_step := env.steps }
        equity := env.equity - env.equity * (19 / 20) * env.config.fee_rate }, 0)
  else if action = 3 ∧ env.position.isSome then
    match env.position with
    | some pos =>
      let pnl := calculate_pnl env current_price
      let position_value := current_price * pos.quantity
      let fees := position_value * env.config.fee_rate
      ({ env with equity := env.equity + (pnl - fees), position := none },
        (pnl / env.config.initial_equity) * 100)
    | none => (env, 0)
  else (env, 0)

/-- Result of one TradingEnvironment.step call. -/
structure StepResult where
  next_state : List ℚ
  reward : ℚ
  done : Bool
  env : Env

/-- TradingEnvironment.step: execute the action, advance the index and the
step counter, update the peak equity, decide termination, force-close an
open position on termination (realizing PnL with no fee and adding the
close reward), and build the next state (the all-zero vector of dimension
`CONFIG.state_dim` when done, as the script reads the global CONFIG
there).  The script evaluates the done condition after the peak-equity
write; that write touches only `peak_equity`, so the condition is phrased
over `env2`, whose remaining fields are identical to those of `env3`. -/
def step (sq : ℚ → ℚ) (env : Env) (action : ℕ) : StepResult :=
  let current_price := stepPrice env
  let ar := execAction env action
  let env1 := ar.1
  let reward1 := ar.2
  let env2 := { env1 with current_idx := env1.current_idx + 1, steps := env1.steps + 1 }
  let total_equity := get_total_equity env2 current_price
  let peak2 := if env2.peak_equity < total_equity then total_equity else env2.peak_equity
  let env3 := { env2 with peak_equity := peak2 }
  let done : Bool :=
    decide ((env2.current_idx : ℤ) ≥ (env2.ohlcv.length : ℤ) - 1) ||
    decide (env2.steps ≥ env2.config.max_steps) ||
    decide (total_equity < env2.config.initial_equity * (1 / 2))
  let forced := done && env3.position.isSome
  let pnl := calculate_pnl env3 current_price
  let env4 :=
    { env3 with
        equity := if forced then env3.equity + pnl else env3.equity
        position := if forced then none else env3.position }
  let reward2 :=
    if forced then reward1 + (pnl / env3.config.initial_equity) * 100 else reward1
  let nst := if done then List.replicate CONFIG.state_dim (0 : ℚ) else get_state sq env4
  ⟨nst, reward2, done, env4⟩

/-- Early-stopping and checkpoint bookkeeping of train_model, per episode.
`best_avg = none` models the initial `float(-inf)`, against which any
finite average improves.  `best_saves` and `checkpoint_saves` record the
1-based episode numbers at which a best model, respectively a periodic
checkpoint, is persisted. -/
structure TrainState where
  episode_rewards : List ℚ
  best_avg : Option ℚ
  patience : ℕ
  stopped : Bool
  best_saves : List ℕ
  checkpoint_saves : List ℕ
deriving DecidableEq

/-- Fresh bookkeeping state at the start of train_model. -/
def initialTrainState : TrainState :=
  { episode_rewards := []
    best_avg := none
    patience := 0
    stopped := false
    best_saves := []
    checkpoint_saves := [] }

/-- Improvement test of the early-stopping check: the new average must
exceed the best seen so far by more than `min_improvement`; against the
initial `-inf` every average improves. -/
def improves (best : Option ℚ) (min_improvement avg : ℚ) : Bool :=
  match best with
  | none => true
  | some b => decide (b + min_improvement < avg)

/-- Reward bookkeeping and early-stopping check of one train_model
iteration for 0-based episode `e`: append the reward and, at every 10th
episode, compare the 10-episode moving average with the best seen; on
improvement reset patience, record the average and save a best model,
otherwise increment patience and stop once it reaches the patience
limit. -/
def esCheck (cfg : Config) (s : TrainState) (e : ℕ) (r : ℚ) : TrainState :=
  let rs := s.episode_rewards ++ [r]
  if (e + 1) % 10 = 0 then
    let avg := npMean (lastN 10 rs)
    if improves s.best_avg cfg.min_improvement avg then
      { s with
          episode_rewards := rs
          best_avg := some avg
          patience := 0
          best_saves := s.best_saves ++ [e + 1] }
    else
      { s with
          episode_rewards := rs
          patience := s.patience + 1
          stopped := decide (cfg.early_stopping_patience ≤ s.patience + 1) }
  else { s with episode_rewards := rs }

/-- Body of one iteration of the train_model loop: the early-stopping
check of `esCheck` followed, when the iteration does not break, by the
periodic checkpoint save. -/
def processEpisode (cfg : Config) (s : TrainState) (e : ℕ) (r : ℚ) : TrainState :=
  let s1 := esCheck cfg s e r
  if s1.stopped then s1
  else if (e + 1) % cfg.checkpoint_interval = 0 then
    { s1 with checkpoint_saves := s1.checkpoint_saves ++ [e + 1] }
  else s1

/-- The train_model episode loop from episode `e`, with `fuel` iterations
remaining (train_model starts it with `fuel = cfg.episodes`, `e = 0`);
the loop exits early as soon as the state is stopped, as the `break`
does. -/
def runEpisodes (cfg : Config) (r : ℕ → ℚ) : ℕ → ℕ → TrainState → TrainState
  | 0, _, s => s
  | fuel + 1, e, s =>
    if s.stopped then s
    else runEpisodes cfg r fuel (e + 1) (processEpisode cfg s e (r e))

/-- Default discount factor of PPOAgent (its `gamma=0.99` default, also
the value CONFIG passes). -/
def ppoDefaultGamma : ℚ := 99 / 100

/-- One-step advantages of PPOAgent.train before normalization:
`rewards + gamma * next_values * (1 - dones) - values`, elementwise over
the episode buffer (dones enter the arithmetic as 0/1 as numpy promotes
the boolean array). -/
def rawAdvantages (gamma : ℚ) (rewards : List ℚ) (dones : List Bool)
    (values next_values : List ℚ) : List ℚ :=
  List.zipWith (fun a v => a - v)
    (List.zipWith (fun r nv => r + nv) rewards
      (List.zipWith (fun nv d => gamma * nv * (1 - (if d then 1 else 0))) next_values dones))
    values

/-- Advantage normalization of PPOAgent.train:
`(advantages - mean) / (std + 1e-8)` elementwise.  `s` stands for
`np.std(advantages)`, the nonnegative square root of the population
variance, passed explicitly because square roots leave ℚ; the theorems
characterize it by `0 ≤ s` and `s * s = npVariance adv`. -/
def normalizeAdvantages (s : ℚ) (adv : List ℚ) : List ℚ :=
  adv.map (fun a => (a - npMean adv) / (s + 1 / 100000000))

/-- Confidence triple printed by confidence_scorer (rf, xgb, lstm). -/
structure ConfResult where
  rf_confidence : ℚ
  xgb_confidence : ℚ
  lstm_confidence : ℚ
deriving DecidableEq

/-- Neutral fallback of confidence_scorer.main: 0.50 for each model. -/
def confNeutral : ConfResult := ⟨1 / 2, 1 / 2, 1 / 2⟩

/-- Control flow of confidence_scorer.main once a state argument is
present, over the outcomes of its three external effects: JSON parsing of
the argument (an exception is caught by the outer handler), model loading
(returning False on failure), and scoring (an exception is caught by the
outer handler).  The returned value is the JSON object the script prints;
every branch prints one, so the model is a total function. -/
def confidenceMain {α : Type} (parsed : Except String α) (loadOk : Bool)
    (score : α → Except String ConfResult) : ConfResult :=
  match parsed with
  | Except.error _ => confNeutral
  | Except.ok st =>
    if loadOk then
      match score st with
      | Except.ok r => r
      | Except.error _ => confNeutral
    else confNeutral

/-- Neutral fallback of anomaly_scorer.main: score -0.4. -/
def anomalyNeutral : ℚ := -(2 / 5)

/-- Control flow of anomaly_scorer.main once a conditions argument is
present, in the same style as `confidenceMain`; the printed object holds a
single score. -/
def anomalyMain {α : Type} (parsed : Except String α) (loadOk : Bool)
    (score : α → Except String ℚ) : ℚ :=
  match parsed with
  | Except.error _ => anomalyNeutral
  | Except.ok conditions =>
    if loadOk then
      match score conditions with
      | Except.ok r => r
      | Except.error _ => anomalyNeutral
    else anomalyNeutral

/-- Concrete square-root stand-in used by the concrete evaluations; the
claims quantify over every such function, so any choice works here. -/
def sq0 : ℚ → ℚ := fun _ => 0

/-- Tiny three-candle series with an open LONG position one step before
the end of the data, used to exercise the forced terminal liquidation. -/
def envT : Env :=
  { ohlcv := [⟨0, 100, 1⟩, ⟨1, 110, 1⟩, ⟨2, 120, 1⟩]
    funding := []
    vwap := []
    config := CONFIG
    current_idx := 1
    equity := 10000
    peak_equity := 10000
    position := some ⟨Side.LONG, 100, 1, 0⟩
    steps := 0 }

/-- Five-candle series with an open LONG position far from every
termination condition, used to exercise a non-terminal explicit CLOSE. -/
def envW : Env :=
  { ohlcv := [⟨0, 100, 1⟩, ⟨1, 110, 2⟩, ⟨2, 120, 1⟩, ⟨3, 130, 2⟩, ⟨4, 140, 1⟩]
    funding := []
    vwap := []
    config := CONFIG
    current_idx := 1
    equity := 10000
    peak_equity := 10000
    position := some ⟨Side.LONG, 100, 1, 0⟩
    steps := 0 }

/-- Data environment for reachability arguments: 24 candles (flat at 100
up to index 20, rising afterwards), the real CONFIG (lookback 20), and
zeroed mutable fields that `reset` overwrites before any step runs. -/
def envD : Env :=
  { ohlcv :=
      [⟨0, 100, 1⟩, ⟨1, 100, 1⟩, ⟨2, 100, 1⟩, ⟨3, 100, 1⟩, ⟨4, 100, 1⟩, ⟨5, 100, 1⟩,
       ⟨6, 100, 1⟩, ⟨7, 100, 1⟩, ⟨8, 100, 1⟩, ⟨9, 100, 1⟩, ⟨10, 100, 1⟩, ⟨11, 100, 1⟩,
       ⟨12, 100, 1⟩, ⟨13, 100, 1⟩, ⟨14, 100, 1⟩, ⟨15, 100, 1⟩, ⟨16, 100, 1⟩,
       ⟨17, 100, 1⟩, ⟨18, 100, 1⟩, ⟨19, 100, 1⟩, ⟨20, 100, 1⟩, ⟨21, 110, 1⟩,
       ⟨22, 120, 1⟩, ⟨23, 130, 1⟩]
    funding := []
    vwap := []
    config := CONFIG
    current_idx := 0
    equity := 0
    peak_equity := 0
    position := none
    steps := 0 }

/-- State of `envD` after reset and one BUY at price 100: a LONG position
of quantity 95 is open, the opening fee has been paid, and two more
candles remain, so the next step is still non-terminal. -/
def envA : Env :=
  { ohlcv := envD.ohlcv
    funding := []
    vwap := []
    config := CONFIG
    current_idx := 21
    equity := 79943 / 8
    peak_equity := 10000
    position := some ⟨Side.LONG, 100, 95, 0⟩
    steps := 1 }

/-- State of `envD` after reset, one BUY and one no-op BUY: the LONG
position is still open at index 22 and the following step hits the end
of the series. -/
def envB : Env :=
  { ohlcv := envD.ohlcv
    funding := []
    vwap := []
    config := CONFIG
    current_idx := 22
    equity := 79943 / 8
    peak_equity := 87543 / 8
    position := some ⟨Side.LONG, 100, 95, 0⟩
    steps := 2 }

/-- Environment states reachable from reset by any sequence of step
actions, the scope in which the state-machine invariants are claimed. -/
inductive Reachable (sq : ℚ → ℚ) (base : Env) : Env → Prop where
  | reset0 : Reachable sq base (reset base)
  | stepR : ∀ (env : Env) (a : ℕ), Reachable sq base env →
      Reachable sq base ((step sq env a).env)

lemma foldl_min_le_init (t : List ℚ) : ∀ a : ℚ, t.foldl min a ≤ a := by
  induction t with
  | nil => intro a; exact le_refl a
  | cons x t ih =>
    intro a
    exact le_trans (ih (min a x)) (min_le_left a x)

lemma foldl_min_le_mem (t : List ℚ) : ∀ (a x : ℚ), x ∈ t → t.foldl min a ≤ x := by
  induction t with
  | nil => intro a x h; cases h
  | cons y t ih =>
    intro a x h
    rcases List.mem_cons.mp h with h1 | h2
    · subst h1
      exact le_trans (foldl_min_le_init t (min a x)) (min_le_right a x)
    · exact ih (min a y) x h2

lemma foldl_min_choice (t : List ℚ) : ∀ a : ℚ, t.foldl min a = a ∨ t.foldl min a ∈ t := by
  induction t with
  | nil => intro a; exact Or.inl rfl
  | cons x t ih =>
    intro a
    rcases ih (min a x) with h | h
    · rcases min_choice a x with h1 | h1
      · exact Or.inl (by rw [List.foldl_cons, h, h1])
      · refine Or.inr ?_
        rw [List.foldl_cons, h, h1]
        exact List.mem_cons_self x t
    · exact Or.inr (List.mem_cons_of_mem x h)

lemma init_le_foldl_max (t : List ℚ) : ∀ a : ℚ, a ≤ t.foldl max a := by
  induction t with
  | nil => intro a; exact le_refl a
  | cons x t ih =>
    intro a
    exact le_trans (le_max_left a x) (ih (max a x))

lemma mem_le_foldl_max (t : List ℚ) : ∀ (a x : ℚ), x ∈ t → x ≤ t.foldl max a := by
  induction t with
  | nil => intro a x h; cases h
  | cons y t ih =>
    intro a x h
    rcases List.mem_cons.mp h with h1 | h2
    · subst h1
      exact le_trans (le_max_right a x) (init_le_foldl_max t (max a x))
    · exact ih (max a y) x h2

lemma foldl_max_choice (t : List ℚ) : ∀ a : ℚ, t.foldl max a = a ∨ t.foldl max a ∈ t := by
  induction t with
  | nil => intro a; exact Or.inl rfl
  | cons x t ih =>
    intro a
    rcases ih (max a x) with h | h
    · rcases max_choice a x with h1 | h1
      · exact Or.inl (by rw [List.foldl_cons, h, h1])
      · refine Or.inr ?_
        rw [List.foldl_cons, h, h1]
        exact List.mem_cons_self x t
    · exact Or.inr (List.mem_cons_of_mem x h)

lemma listMin_le_mem (xs : List ℚ) (x : ℚ) (h : x ∈ xs) : listMin xs ≤ x := by
  cases xs with
  | nil => cases h
  | cons y t =>
    rcases List.mem_cons.mp h with h1 | h2
    · subst h1; exact foldl_min_le_init t x
    · exact foldl_min_le_mem t y x h2

lemma mem_le_listMax (xs : List ℚ) (x : ℚ) (h : x ∈ xs) : x ≤ listMax xs := by
  cases xs with
  | nil => cases h
  | cons y t =>
    rcases List.mem_cons.mp h with h1 | h2
    · subst h1; exact init_le_foldl_max t x
    · exact mem_le_foldl_max t y x h2

lemma listMin_mem (xs : List ℚ) (h : xs ≠ []) : listMin xs ∈ xs := by
  cases xs with
  | nil => exact absurd rfl h
  | cons y t =>
    show t.foldl min y ∈ y :: t
    rcases foldl_min_choice t y with h1 | h1
    · rw [h1]; exact List.mem_cons_self y t
    · exact List.mem_cons_of_mem y h1

lemma listMin_le_listMax (xs : List ℚ) (h : xs ≠ []) : listMin xs ≤ listMax xs :=
  mem_le_listMax xs (listMin xs) (listMin_mem xs h)

lemma getD_map {α β : Type} (f : α → β) :
    ∀ (l : List α) (i : ℕ) (d1 : α) (d2 : β), i < l.length →
      (l.map f).getD i d2 = f (l.getD i d1) := by
  intro l
  induction l with
  | nil => intro i d1 d2 h; cases h
  | cons x t ih =>
    intro i d1 d2 h
    cases i with
    | zero => rfl
    | succ j =>
      simp only [List.map_cons, List.getD_cons_succ]
      exact ih j d1 d2 (Nat.lt_of_succ_lt_succ h)

lemma getD_zipWith {α β γ : Type} (f : α → β → γ) :
    ∀ (l1 : List α) (l2 : List β) (i : ℕ) (d1 : α) (d2 : β) (d3 : γ),
      i < l1.length → i < l2.length →
      (List.zipWith f l1 l2).getD i d3 = f (l1.getD i d1) (l2.getD i d2) := by
  intro l1
  induction l1 with
  | nil => intro l2 i d1 d2 d3 h1 h2; cases h1
  | cons x t ih =>
    intro l2 i d1 d2 d3 h1 h2
    cases l2 with
    | nil => cases h2
    | cons y t2 =>
      cases i with
      | zero => rfl
      | succ j =>
        simp only [List.zipWith_cons_cons, List.getD_cons_succ]
        exact ih t2 j d1 d2 d3 (Nat.lt_of_succ_lt_succ h1) (Nat.lt_of_succ_lt_succ h2)

/-- Claim C8: with equal min and max, `normalize` returns the zero vector
of the same length; with nonzero range it applies the affine min-max map
`2 * (x - min) / (max - min) - 1` elementwise, every output lies in
[-1, 1], and positions holding the minimum, respectively the maximum, map
to -1, respectively 1. -/
theorem claim_C8 (xs : List ℚ) (hne : xs ≠ []) :
    (listMin xs = listMax xs →
      normalize xs = xs.map (fun _ => (0 : ℚ)) ∧ (normalize xs).length = xs.length) ∧
    (listMin xs ≠ listMax xs →
      normalize xs = xs.map (fun v => 2 * (v - listMin xs) / (listMax xs - listMin xs) - 1) ∧
      (∀ y ∈ normalize xs, -1 ≤ y ∧ y ≤ 1) ∧
      (∀ i, i < xs.length → xs.getD i 0 = listMin xs → (normalize xs).getD i 0 = -1) ∧
      (∀ i, i < xs.length → xs.getD i 0 = listMax xs → (normalize xs).getD i 0 = 1)) := by
  constructor
  · intro h
    have hr : listMax xs - listMin xs = 0 := by rw [h, sub_self]
    constructor
    · simp only [normalize, hr, if_pos]
    · simp only [normalize, hr, if_pos, List.length_map]
  · intro h
    have hlt : listMin xs < listMax xs :=
      lt_of_le_of_ne (listMin_le_listMax xs hne) h
    have hr : 0 < listMax xs - listMin xs := sub_pos.mpr hlt
    have hr0 : listMax xs - listMin xs ≠ 0 := ne_of_gt hr
    have heq : normalize xs =
        xs.map (fun v => 2 * (v - listMin xs) / (listMax xs - listMin xs) - 1) := by
      simp only [normalize, hr0, if_neg, ite_false]
    refine ⟨heq, ?_, ?_, ?_⟩
    · intro y hy
      rw [heq] at hy
      obtain ⟨v, hv, rfl⟩ := List.mem_map.mp hy
      have h1 : listMin xs ≤ v := listMin_le_mem xs v hv
      have h2 : v ≤ listMax xs := mem_le_listMax xs v hv
      have hq1 : 0 ≤ (v - listMin xs) / (listMax xs - listMin xs) :=
        div_nonneg (by linarith) hr.le
      have hq2 : (v - listMin xs) / (listMax xs - listMin xs) ≤ 1 :=
        (div_le_one hr).mpr (by linarith)
      have hassoc : 2 * (v - listMin xs) / (listMax xs - listMin xs) =
          2 * ((v - listMin xs) / (listMax xs - listMin xs)) := mul_div_assoc 2 _ _
      constructor <;> [skip; skip] <;> rw [hassoc] <;> linarith
    · intro i hi hxi
      rw [heq, getD_map _ xs i 0 0 hi, hxi]
      simp
    · intro i hi hxi
      rw [heq, getD_map _ xs i 0 0 hi, hxi]
      rw [sub_eq_iff_eq_add, mul_div_assoc, div_self hr0]
      norm_num

/-- Witness for claim C8 at the concrete array [1, 3]. -/
theorem claim_C8_witness : normalize [(1 : ℚ), 3] = [-1, 1] := by
  have h := (claim_C8 [(1 : ℚ), 3] (by decide)).2 (by norm_num [listMin, listMax])
  rw [h.1]
  norm_num [listMin, listMax]

/-- Claim C2: an explicit CLOSE on an open position at a non-terminal step
realizes PnL exactly (price difference times quantity, orientation by
side), pays a closing fee of exit price times quantity times fee rate, and
emits reward 100 times PnL over the initial equity. -/
theorem claim_C2 (sq : ℚ → ℚ) (env : Env) (pos : Position)
    (hpos : env.position = some pos)
    (_hdone : (step sq env 3).done = false) :
    (step sq env 3).env.equity =
      env.equity +
        (match pos.side with
          | Side.LONG => (stepPrice env - pos.entry_price) * pos.quantity
          | Side.SHORT => (pos.entry_price - stepPrice env) * pos.quantity) -
        stepPrice env * pos.quantity * env.config.fee_rate ∧
    (step sq env 3).reward =
      100 * (match pos.side with
          | Side.LONG => (stepPrice env - pos.entry_price) * pos.quantity
          | Side.SHORT => (pos.entry_price - stepPrice env) * pos.quantity) /
        env.config.initial_equity := by
  simp only [step, execAction, calculate_pnl, hpos]
  simp only [Option.isNone_some, Option.isSome_some]
  norm_num
  cases pos.side <;> constructor <;> ring

/-- Witness for claim C2: the concrete environment `envW` closes its LONG
position at price 110, leaving equity 10000 + 10 - 0.0825 and reward
0.1. -/
theorem claim_C2_witness :
    (step sq0 envW 3).env.equity = 4003967 / 400 ∧ (step sq0 envW 3).reward = 1 / 10 := by
  have hd : (step sq0 envW 3).done = false := by
    simp only [step, execAction, calculate_pnl, get_total_equity, stepPrice, envW, CONFIG,
      defaultCandle, List.getD_cons_succ, List.getD_cons_zero, Option.isNone_some,
      Option.isSome_some]
    norm_num
  have h := claim_C2 sq0 envW ⟨Side.LONG, 100, 1, 0⟩ rfl hd
  rw [h.1, h.2]
  constructor <;>
    · simp only [stepPrice, envW, CONFIG, defaultCandle, List.getD_cons_succ,
        List.getD_cons_zero]
      norm_num

lemma step_reward_eq (sq : ℚ → ℚ) (env : Env) (a : ℕ) :
    (step sq env a).reward =
      (if (step sq env a).done && (execAction env a).1.position.isSome
        then (execAction env a).2 +
          (calculate_pnl (execAction env a).1 (stepPrice env) /
            (execAction env a).1.config.initial_equity) * 100
        else (execAction env a).2) := rfl

lemma step_env_equity (sq : ℚ → ℚ) (env : Env) (a : ℕ) :
    (step sq env a).env.equity =
      (if (step sq env a).done && (execAction env a).1.position.isSome
        then (execAction env a).1.equity + calculate_pnl (execAction env a).1 (stepPrice env)
        else (execAction env a).1.equity) := rfl

lemma step_env_position (sq : ℚ → ℚ) (env : Env) (a : ℕ) :
    (step sq env a).env.position =
      (if (step sq env a).done && (execAction env a).1.position.isSome
        then none else (execAction env a).1.position) := rfl

lemma step_next_state (sq : ℚ → ℚ) (env : Env) (a : ℕ) :
    (step sq env a).next_state =
      (if (step sq env a).done then List.replicate CONFIG.state_dim (0 : ℚ)
        else get_state sq (step sq env a).env) := rfl

lemma execAction_fields (env : Env) (a : ℕ) :
    (execAction env a).1.ohlcv = env.ohlcv ∧
    (execAction env a).1.funding = env.funding ∧
    (execAction env a).1.vwap = env.vwap ∧
    (execAction env a).1.config = env.config ∧
    (execAction env a).1.current_idx = env.current_idx ∧
    (execAction env a).1.peak_equity = env.peak_equity ∧
    (execAction env a).1.steps = env.steps := by
  unfold execAction
  split_ifs <;> try simp
  cases henv : env.position <;> simp

lemma execAction_reward_ne (env : Env) (a : ℕ)
    (h : (execAction env a).2 ≠ 0) : a = 3 ∧ env.position.isSome = true := by
  unfold execAction at h
  split_ifs at h with h1 h2 h3
  · exact absurd rfl h
  · exact absurd rfl h
  · exact ⟨h3.1, h3.2⟩
  · exact absurd rfl h

lemma execAction_reward_zero (env : Env) (a : ℕ)
    (h : a = 0 ∨ a = 1 ∨ a = 2 ∨ (a = 3 ∧ env.position = none)) :
    (execAction env a).2 = 0 := by
  unfold execAction
  split_ifs with h1 h2 h3
  · rfl
  · rfl
  · exfalso
    rcases h with rfl | rfl | rfl | ⟨rfl, hn⟩
    · exact absurd h3.1 (by norm_num)
    · exact absurd h3.1 (by norm_num)
    · exact absurd h3.1 (by norm_num)
    · rw [hn] at h3
      exact absurd h3.2 (by simp)
  · rfl

lemma execAction_noop_open (env : Env) (a : ℕ)
    (hp : env.position.isSome = true) (ha : a = 1 ∨ a = 2) :
    execAction env a = (env, 0) := by
  unfold execAction
  split_ifs with h1 h2 h3
  · exfalso; rw [Option.isNone_iff_eq_none] at h1; rw [h1.2] at hp; simp at hp
  · exfalso; rw [Option.isNone_iff_eq_none] at h2; rw [h2.2] at hp; simp at hp
  · exfalso; rcases ha with rfl | rfl
    · exact absurd h3.1 (by norm_num)
    · exact absurd h3.1 (by norm_num)
  · rfl

lemma execAction_noop_flat (env : Env) (a : ℕ)
    (hp : env.position = none) (ha : a = 3) :
    execAction env a = (env, 0) := by
  subst ha
  unfold execAction
  split_ifs with h1 h2 h3
  · exact absurd h1.1 (by norm_num)
  · exact absurd h2.1 (by norm_num)
  · exfalso; rw [hp] at h3; exact absurd h3.2 (by simp)
  · rfl

/-- Claim C4: step reports done exactly when the advanced index has
reached the last row of the OHLCV series, or the incremented step count
has reached max_steps, or total equity (cash after the action plus
unrealized PnL at the current price) is below half the initial equity. -/
theorem claim_C4 (sq : ℚ → ℚ) (env : Env) (a : ℕ) :
    (step sq env a).done = true ↔
      ((env.current_idx + 1 : ℤ) ≥ (env.ohlcv.length : ℤ) - 1 ∨
       env.steps + 1 ≥ env.config.max_steps ∨
       get_total_equity (execAction env a).1 (stepPrice env) <
         env.config.initial_equity * (1 / 2)) := by
  obtain ⟨ho, _, _, hc, hi, _, hs⟩ := execAction_fields env a
  simp only [step, Bool.or_eq_true, decide_eq_true_eq]
  rw [ho, hc, hi, hs]
  constructor
  · intro h
    rcases h with (h | h) | h
    · left; push_cast at h ⊢; omega
    · right; left; exact h
    · right; right; exact h
  · intro h
    rcases h with h | h | h
    · left; left; push_cast at h ⊢; omega
    · left; right; exact h
    · right; exact h

/-- Claim C5: a nonzero step reward can only come from an explicit CLOSE
on an open position or from the forced close of a position still open at
termination; HOLD, BUY and SELL, as well as the no-op CLOSE while flat,
yield reward 0 whenever no forced terminal close fires. -/
theorem claim_C5 (sq : ℚ → ℚ) (env : Env) (a : ℕ) :
    ((step sq env a).reward ≠ 0 →
      (a = 3 ∧ env.position.isSome = true) ∨
      ((step sq env a).done = true ∧ (execAction env a).1.position.isSome = true)) ∧
    ((a = 0 ∨ a = 1 ∨ a = 2 ∨ (a = 3 ∧ env.position = none)) →
      ¬((step sq env a).done = true ∧ (execAction env a).1.position.isSome = true) →
      (step sq env a).reward = 0) := by
  constructor
  · intro h
    rw [step_reward_eq] at h
    by_cases hf :
      ((step sq env a).done && (execAction env a).1.position.isSome) = true
    · right
      exact Bool.and_eq_true_iff.mp hf
    · left
      rw [Bool.not_eq_true] at hf
      simp only [hf, Bool.false_eq_true, if_false] at h
      exact execAction_reward_ne env a h
  · intro ha hnf
    rw [step_reward_eq]
    have hb : ((step sq env a).done && (execAction env a).1.position.isSome) = false := by
      cases hd : (step sq env a).done
      · simp
      · cases hp : (execAction env a).1.position.isSome
        · simp
        · exact absurd ⟨hd, hp⟩ hnf
    simp only [hb, Bool.false_eq_true, if_false]
    exact execAction_reward_zero env a ha

/-- Witness for claim C5: a HOLD step in the concrete non-terminal
environment yields reward 0. -/
theorem claim_C5_witness : (step sq0 envW 0).reward = 0 := by
  have hb : ¬((step sq0 envW 0).done = true ∧
      (execAction envW 0).1.position.isSome = true) := by
    intro hc
    have hd : (step sq0 envW 0).done = false := by
      simp only [step, execAction, calculate_pnl, get_total_equity, stepPrice, envW, CONFIG,
        defaultCandle, List.getD_cons_succ, List.getD_cons_zero, Option.isNone_some,
        Option.isSome_some]
      norm_num
    rw [hd] at hc
    exact absurd hc.1 (by simp)
  exact (claim_C5 sq0 envW 0).2 (Or.inl rfl) hb

lemma step_reset_envD : (step sq0 (reset envD) 1).env = envA := by
  simp only [step, execAction, calculate_pnl, get_total_equity, stepPrice, reset, envD,
    CONFIG, defaultCandle, List.getD_cons_succ, List.getD_cons_zero, Option.isNone_none,
    Option.isSome_some, List.length_cons, List.length_nil]
  norm_num [envA, envD, CONFIG, Env.mk.injEq, Position.mk.injEq]

lemma step_envA : (step sq0 envA 1).env = envB := by
  simp only [step, execAction, calculate_pnl, get_total_equity, stepPrice, envA, envD,
    CONFIG, defaultCandle, List.getD_cons_succ, List.getD_cons_zero, Option.isNone_some,
    Option.isSome_some, List.length_cons, List.length_nil]
  norm_num [envB, envD, CONFIG, Env.mk.injEq, Position.mk.injEq]

/-- Counterexample to claim C3 as stated: `envB` is reachable from reset
on the `envD` data (reset, BUY, then a no-op BUY) with its LONG position
open, yet a BUY issued there is a terminal step whose forced liquidation
clears the position and emits reward 19, so the BUY is not the claimed
complete no-op within the claim's reachable scope. -/
theorem claim_C3_counterexample :
    Reachable sq0 envD envB ∧
    envB.position.isSome = true ∧
    (step sq0 envB 1).done = true ∧
    (step sq0 envB 1).env.position = none ∧
    ¬((step sq0 envB 1).env.position = envB.position) ∧
    ¬((step sq0 envB 1).reward = 0) := by
  have hreach : Reachable sq0 envD envB := by
    have h : Reachable sq0 envD ((step sq0 ((step sq0 (reset envD) 1).env) 1).env) :=
      Reachable.stepR _ 1 (Reachable.stepR _ 1 Reachable.reset0)
    rwa [step_reset_envD, step_envA] at h
  have hexec : execAction envB 1 = (envB, 0) := rfl
  have hdone : (step sq0 envB 1).done = true := by
    simp only [step, hexec]
    norm_num [envB, envD]
  have hpos : (step sq0 envB 1).env.position = none := by
    rw [step_env_position, hdone, hexec]
    rfl
  refine ⟨hreach, rfl, hdone, hpos, ?_, ?_⟩
  · rw [hpos]; intro hc; exact absurd hc.symm (by simp [envB])
  · rw [step_reward_eq, hdone, hexec]
    simp only [envB, Bool.and_self, if_true]
    norm_num [calculate_pnl, stepPrice, envB, envD, CONFIG, defaultCandle]

/-- Claim C3 amended: in every state reachable from reset by step actions,
the position slot holds at most one position (none, or a single LONG or
SHORT one); BUY and SELL with a position already open leave position,
equity and reward (0) unchanged provided the step is not terminal (at a
terminal step the forced liquidation still fires); CLOSE while flat
leaves equity unchanged, yields reward 0 and keeps the position empty,
terminal or not. -/
theorem claim_C3_amended (sq : ℚ → ℚ) (base : Env) (env : Env) (a : ℕ)
    (_hreach : Reachable sq base env) :
    ((step sq env a).env.position = none ∨
      ∃ pos : Position, (step sq env a).env.position = some pos ∧
        (pos.side = Side.LONG ∨ pos.side = Side.SHORT)) ∧
    (env.position.isSome = true → (a = 1 ∨ a = 2) → (step sq env a).done = false →
      (step sq env a).env.position = env.position ∧
      (step sq env a).env.equity = env.equity ∧
      (step sq env a).reward = 0) ∧
    (env.position = none → a = 3 →
      (step sq env a).env.position = none ∧
      (step sq env a).env.equity = env.equity ∧
      (step sq env a).reward = 0) := by
  refine ⟨?_, ?_, ?_⟩
  · rcases h : (step sq env a).env.position with _ | pos
    · exact Or.inl rfl
    · refine Or.inr ⟨pos, rfl, ?_⟩
      cases pos.side
      · exact Or.inl rfl
      · exact Or.inr rfl
  · intro hp ha hdone
    have hexec := execAction_noop_open env a hp ha
    refine ⟨?_, ?_, ?_⟩
    · rw [step_env_position, hdone, hexec]; simp
    · rw [step_env_equity, hdone, hexec]; simp
    · rw [step_reward_eq, hdone, hexec]; simp
  · intro hp ha
    have hexec := execAction_noop_flat env a hp ha
    have hb : ((step sq env a).done && (execAction env a).1.position.isSome) = false := by
      rw [hexec]
      show ((step sq env a).done && env.position.isSome) = false
      rw [hp]
      simp
    refine ⟨?_, ?_, ?_⟩
    · rw [step_env_position, hb, hexec]
      simp [hp]
    · rw [step_env_equity, hb, hexec]; simp
    · rw [step_reward_eq, hb, hexec]; simp

/-- Witness for claim C3 amended: `envA` is reachable (reset then BUY)
and a BUY there, with its position already open and the step not
terminal, changes neither position nor equity and yields reward 0. -/
theorem claim_C3_amended_witness :
    (step sq0 envA 1).env.position = envA.position ∧
    (step sq0 envA 1).env.equity = 79943 / 8 ∧
    (step sq0 envA 1).reward = 0 := by
  have hreach : Reachable sq0 envD envA := by
    have h : Reachable sq0 envD ((step sq0 (reset envD) 1).env) :=
      Reachable.stepR _ 1 Reachable.reset0
    rwa [step_reset_envD] at h
  have hexec : execAction envA 1 = (envA, 0) := rfl
  have hd : (step sq0 envA 1).done = false := by
    simp only [step, hexec]
    simp only [calculate_pnl, get_total_equity, stepPrice, envA, envD, CONFIG,
      defaultCandle, List.getD_cons_succ, List.getD_cons_zero]
    norm_num
  have h := (claim_C3_amended sq0 envD envA 1 hreach).2.1 rfl (Or.inl rfl) hd
  exact ⟨h.1, by rw [h.2.1]; rfl, h.2.2⟩

/-- Counterexample to claim C1 as stated: in `envT` the terminal forced
close realizes PnL 10 into equity with no closing-fee deduction, so the
final equity is 10010 and not the fee-reduced value the claim
predicts. -/
theorem claim_C1_counterexample :
    (step sq0 envT 0).done = true ∧
    envT.position = some ⟨Side.LONG, 100, 1, 0⟩ ∧
    (step sq0 envT 0).env.equity = 10010 ∧
    ¬((step sq0 envT 0).env.equity =
        envT.equity + (110 - 100) * 1 - 110 * 1 * envT.config.fee_rate) ∧
    (step sq0 envT 0).reward = 1 / 10 ∧
    (step sq0 envT 0).env.position = none := by
  have hexec : execAction envT 0 = (envT, 0) := rfl
  have hdone : (step sq0 envT 0).done = true := by
    simp only [step, hexec]
    norm_num [envT]
  have heq : (step sq0 envT 0).env.equity = 10010 := by
    rw [step_env_equity, hdone, hexec]
    simp only [envT, Bool.and_self, if_true]
    norm_num [calculate_pnl, stepPrice, envT, CONFIG, defaultCandle]
  refine ⟨hdone, rfl, heq, ?_, ?_, ?_⟩
  · rw [heq]
    norm_num [envT, CONFIG]
  · rw [step_reward_eq, hdone, hexec]
    simp only [envT, Bool.and_self, if_true]
    norm_num [calculate_pnl, stepPrice, envT, CONFIG, defaultCandle]
  · rw [step_env_position, hdone, hexec]
    simp [envT]

/-- Claim C1 amended: when a step terminates with a position still open
after the action phase, the forced implicit CLOSE realizes the position
PnL into equity with no closing fee (a BUY-and-never-CLOSE episode pays
only the opening fee), adds 100 times PnL over initial equity to the step
reward, clears the position, and the reported next state is the 17-zero
vector. -/
theorem claim_C1_amended (sq : ℚ → ℚ) (env : Env) (a : ℕ) (pos : Position)
    (hpos : (execAction env a).1.position = some pos)
    (hdone : (step sq env a).done = true) :
    (step sq env a).env.equity =
      (execAction env a).1.equity +
        (match pos.side with
          | Side.LONG => (stepPrice env - pos.entry_price) * pos.quantity
          | Side.SHORT => (pos.entry_price - stepPrice env) * pos.quantity) ∧
    (step sq env a).reward =
      (execAction env a).2 +
        100 * (match pos.side with
          | Side.LONG => (stepPrice env - pos.entry_price) * pos.quantity
          | Side.SHORT => (pos.entry_price - stepPrice env) * pos.quantity) /
          env.config.initial_equity ∧
    (step sq env a).env.position = none ∧
    (step sq env a).next_state = List.replicate 17 0 := by
  obtain ⟨_, _, _, hcfg, _, _, _⟩ := execAction_fields env a
  have hpnl : calculate_pnl (execAction env a).1 (stepPrice env) =
      (match pos.side with
        | Side.LONG => (stepPrice env - pos.entry_price) * pos.quantity
        | Side.SHORT => (pos.entry_price - stepPrice env) * pos.quantity) := by
    rw [calculate_pnl, hpos]
  refine ⟨?_, ?_, ?_, ?_⟩
  · rw [step_env_equity, hdone, hpos]
    simp only [Option.isSome_some, Bool.and_self, if_true, hpnl]
  · rw [step_reward_eq, hdone, hpos]
    simp only [Option.isSome_some, Bool.and_self, if_true, hpnl, hcfg]
    cases pos.side <;> ring
  · rw [step_env_position, hdone, hpos]
    simp
  · rw [step_next_state, hdone]
    rfl

/-- Witness for claim C1 amended: the concrete terminal HOLD step on
`envT` realizes PnL 10 with no fee, emits reward 0.1, clears the
position and reports the zero state. -/
theorem claim_C1_amended_witness :
    (step sq0 envT 0).env.equity = 10010 ∧
    (step sq0 envT 0).reward = 1 / 10 ∧
    (step sq0 envT 0).env.position = none ∧
    (step sq0 envT 0).next_state = List.replicate 17 0 := by
  have hexec : execAction envT 0 = (envT, 0) := rfl
  have hdone : (step sq0 envT 0).done = true := by
    simp only [step, hexec]
    norm_num [envT]
  have h := claim_C1_amended sq0 envT 0 ⟨Side.LONG, 100, 1, 0⟩ (by rw [hexec]; rfl) hdone
  refine ⟨?_, ?_, h.2.2.1, h.2.2.2⟩
  · rw [h.1, hexec]
    norm_num [envT, stepPrice, CONFIG, defaultCandle]
  · rw [h.2.1, hexec]
    norm_num [envT, stepPrice, CONFIG, defaultCandle]

/-- Claim C10: every encoded state has exactly 17 features, with the
order-flow slot (index 11) fixed at 0 and the correlation slot (index 12)
fixed at 0.5; reset returns such a vector, a non-terminal step returns the
encoded state of the updated environment, and a terminal step returns the
17-element zero vector. -/
theorem claim_C10 (sq : ℚ → ℚ) (env : Env) (a : ℕ) :
    (get_state sq env).length = 17 ∧
    (get_state sq env).getD 11 0 = 0 ∧
    (get_state sq env).getD 12 0 = 1 / 2 ∧
    (resetState sq env).length = 17 ∧
    ((step sq env a).done = false →
      (step sq env a).next_state = get_state sq (step sq env a).env) ∧
    ((step sq env a).done = true →
      (step sq env a).next_state = List.replicate 17 (0 : ℚ)) := by
  refine ⟨rfl, rfl, rfl, rfl, ?_, ?_⟩
  · intro h
    rw [step_next_state, h]
    simp
  · intro h
    rw [step_next_state, h]
    rfl

/-- Witness for claim C10: the terminal CLOSE step on `envT` reports the
17-element zero vector as its next state. -/
theorem claim_C10_witness :
    (step sq0 envT 3).next_state = List.replicate 17 (0 : ℚ) := by
  have hdone : (step sq0 envT 3).done = true := by
    simp only [step, execAction, calculate_pnl, stepPrice, envT, CONFIG, defaultCandle,
      List.getD_cons_succ, List.getD_cons_zero, Option.isNone_some, Option.isSome_some]
    norm_num
  exact (claim_C10 sq0 envT 3).2.2.2.2.2 hdone

lemma processEpisode_core (cfg : Config) (s : TrainState) (e : ℕ) (r : ℚ) :
    (processEpisode cfg s e r).patience = (esCheck cfg s e r).patience ∧
    (processEpisode cfg s e r).stopped = (esCheck cfg s e r).stopped ∧
    (processEpisode cfg s e r).best_avg = (esCheck cfg s e r).best_avg ∧
    (processEpisode cfg s e r).best_saves = (esCheck cfg s e r).best_saves := by
  simp only [processEpisode]
  split_ifs <;> exact ⟨rfl, rfl, rfl, rfl⟩

lemma esCheck_no_check (cfg : Config) (s : TrainState) (e : ℕ) (r : ℚ)
    (hm : (e + 1) % 10 ≠ 0) :
    esCheck cfg s e r = { s with episode_rewards := s.episode_rewards ++ [r] } := by
  unfold esCheck
  rw [if_neg hm]

lemma esCheck_improved (cfg : Config) (s : TrainState) (e : ℕ) (r : ℚ)
    (hm : (e + 1) % 10 = 0)
    (hi : improves s.best_avg cfg.min_improvement
      (npMean (lastN 10 (s.episode_rewards ++ [r]))) = true) :
    esCheck cfg s e r =
      { s with
          episode_rewards := s.episode_rewards ++ [r]
          best_avg := some (npMean (lastN 10 (s.episode_rewards ++ [r])))
          patience := 0
          best_saves := s.best_saves ++ [e + 1] } := by
  unfold esCheck
  rw [if_pos hm]
  simp [hi]

lemma esCheck_not_improved (cfg : Config) (s : TrainState) (e : ℕ) (r : ℚ)
    (hm : (e + 1) % 10 = 0)
    (hi : improves s.best_avg cfg.min_improvement
      (npMean (lastN 10 (s.episode_rewards ++ [r]))) = false) :
    esCheck cfg s e r =
      { s with
          episode_rewards := s.episode_rewards ++ [r]
          patience := s.patience + 1
          stopped := decide (cfg.early_stopping_patience ≤ s.patience + 1) } := by
  unfold esCheck
  rw [if_pos hm]
  simp [hi]

lemma processEpisode_inv (cfg : Config) (s : TrainState) (e : ℕ) (r : ℚ)
    (hlim : 0 < cfg.early_stopping_patience)
    (hs : s.stopped = false) (hp : s.patience < cfg.early_stopping_patience) :
    ((processEpisode cfg s e r).stopped = false →
      (processEpisode cfg s e r).patience < cfg.early_stopping_patience) ∧
    ((processEpisode cfg s e r).stopped = true →
      (processEpisode cfg s e r).patience = cfg.early_stopping_patience) := by
  obtain ⟨hp1, hp2, _, _⟩ := processEpisode_core cfg s e r
  rw [hp1, hp2]
  by_cases hm : (e + 1) % 10 = 0
  · by_cases hi : improves s.best_avg cfg.min_improvement
      (npMean (lastN 10 (s.episode_rewards ++ [r]))) = true
    · rw [esCheck_improved cfg s e r hm hi]
      exact ⟨fun _ => hlim, fun hc => absurd (hs ▸ hc) (by simp [hs])⟩
    · rw [Bool.not_eq_true] at hi
      rw [esCheck_not_improved cfg s e r hm hi]
      dsimp only
      constructor
      · intro h
        simp only [decide_eq_false_iff_not, not_le] at h
        omega
      · intro h
        simp only [decide_eq_true_eq] at h
        omega
  · rw [esCheck_no_check cfg s e r hm]
    exact ⟨fun _ => hp, fun hc => absurd (hs ▸ hc) (by simp [hs])⟩

lemma runEpisodes_inv (cfg : Config) (r : ℕ → ℚ)
    (hlim : 0 < cfg.early_stopping_patience) :
    ∀ (fuel e : ℕ) (s : TrainState),
      (s.stopped = false → s.patience < cfg.early_stopping_patience) →
      (s.stopped = true → s.patience = cfg.early_stopping_patience) →
      ((runEpisodes cfg r fuel e s).stopped = false →
        (runEpisodes cfg r fuel e s).patience < cfg.early_stopping_patience) ∧
      ((runEpisodes cfg r fuel e s).stopped = true →
        (runEpisodes cfg r fuel e s).patience = cfg.early_stopping_patience) := by
  intro fuel
  induction fuel with
  | zero => intro e s h1 h2; exact ⟨h1, h2⟩
  | succ n ih =>
    intro e s h1 h2
    rw [runEpisodes]
    by_cases hs : s.stopped = true
    · rw [if_pos hs]; exact ⟨h1, h2⟩
    · rw [if_neg hs]
      rw [Bool.not_eq_true] at hs
      have hinv := processEpisode_inv cfg s e (r e) hlim hs (h1 hs)
      exact ih (e + 1) (processEpisode cfg s e (r e)) hinv.1 hinv.2

/-- Claim C6: on every 10th episode the trainer compares the moving
average over the last 10 rewards with the best seen; improvement by more
than min_improvement resets the patience counter to 0 and persists a best
model, otherwise the counter is incremented and the loop stops exactly
when the counter reaches the patience limit; the counter is never reset
without such an improvement, and no bookkeeping changes on non-10th
episodes. -/
theorem claim_C6 (cfg : Config) (rf : ℕ → ℚ) (fuel e : ℕ) (s : TrainState) (r : ℚ) :
    ((e + 1) % 10 ≠ 0 →
      (processEpisode cfg s e r).patience = s.patience ∧
      (processEpisode cfg s e r).best_avg = s.best_avg ∧
      (processEpisode cfg s e r).best_saves = s.best_saves ∧
      (processEpisode cfg s e r).stopped = s.stopped) ∧
    ((e + 1) % 10 = 0 →
      improves s.best_avg cfg.min_improvement
        (npMean (lastN 10 (s.episode_rewards ++ [r]))) = true →
      (processEpisode cfg s e r).patience = 0 ∧
      (processEpisode cfg s e r).best_avg =
        some (npMean (lastN 10 (s.episode_rewards ++ [r]))) ∧
      (processEpisode cfg s e r).best_saves = s.best_saves ++ [e + 1] ∧
      (processEpisode cfg s e r).stopped = s.stopped) ∧
    ((e + 1) % 10 = 0 →
      improves s.best_avg cfg.min_improvement
        (npMean (lastN 10 (s.episode_rewards ++ [r]))) = false →
      (processEpisode cfg s e r).patience = s.patience + 1 ∧
      (processEpisode cfg s e r).best_avg = s.best_avg ∧
      (processEpisode cfg s e r).best_saves = s.best_saves ∧
      ((processEpisode cfg s e r).stopped = true ↔
        cfg.early_stopping_patience ≤ s.patience + 1)) ∧
    ((processEpisode cfg s e r).patience = 0 →
      s.patience = 0 ∨
      ((e + 1) % 10 = 0 ∧
        improves s.best_avg cfg.min_improvement
          (npMean (lastN 10 (s.episode_rewards ++ [r]))) = true)) ∧
    (0 < cfg.early_stopping_patience → s.stopped = false →
      s.patience < cfg.early_stopping_patience →
      ((runEpisodes cfg rf fuel e s).stopped = true ↔
        (runEpisodes cfg rf fuel e s).patience = cfg.early_stopping_patience)) := by
  obtain ⟨hc1, hc2, hc3, hc4⟩ := processEpisode_core cfg s e r
  refine ⟨?_, ?_, ?_, ?_, ?_⟩
  · intro hm
    rw [hc1, hc2, hc3, hc4, esCheck_no_check cfg s e r hm]
    exact ⟨rfl, rfl, rfl, rfl⟩
  · intro hm hi
    rw [hc1, hc2, hc3, hc4, esCheck_improved cfg s e r hm hi]
    exact ⟨rfl, rfl, rfl, rfl⟩
  · intro hm hi
    rw [hc1, hc2, hc3, hc4, esCheck_not_improved cfg s e r hm hi]
    refine ⟨rfl, rfl, rfl, ?_⟩
    dsimp only
    rw [decide_eq_true_eq]
  · intro h0
    by_cases hm : (e + 1) % 10 = 0
    · by_cases hi : improves s.best_avg cfg.min_improvement
        (npMean (lastN 10 (s.episode_rewards ++ [r]))) = true
      · exact Or.inr ⟨hm, hi⟩
      · rw [Bool.not_eq_true] at hi
        rw [hc1, esCheck_not_improved cfg s e r hm hi] at h0
        dsimp only at h0
        omega
    · rw [hc1, esCheck_no_check cfg s e r hm] at h0
      exact Or.inl h0
  · intro hlim hs hp
    have hinv := runEpisodes_inv cfg rf hlim fuel e s (fun _ => hp)
      (fun hc => absurd hc (by simp [hs]))
    constructor
    · exact hinv.2
    · intro h
      by_contra hc
      rw [Bool.not_eq_true] at hc
      have h2 := hinv.1 hc
      omega

/-- Witness for claim C6: the first 10-episode check from a fresh state
improves on the initial best, resetting patience and saving a best model
at episode 10. -/
theorem claim_C6_witness :
    (processEpisode CONFIG initialTrainState 9 5).patience = 0 ∧
    (processEpisode CONFIG initialTrainState 9 5).best_saves = [10] := by
  have h := (claim_C6 CONFIG (fun _ => 0) 0 9 initialTrainState 5).2.1 (by norm_num) rfl
  exact ⟨h.1, by rw [h.2.2.1]; rfl⟩

/-- Claim C7: PPOAgent.train computes, per transition of a non-empty
episode buffer, the one-step advantage reward + gamma * V(next) *
(1 - done) - V(state), and normalizes the advantages elementwise to
(a - mean) / (std + 1e-8), with std the nonnegative square root of the
population variance of the advantages (characterized rationally by the
two hypotheses on `s`); the default discount factor is 0.99. -/
theorem claim_C7 (gamma s : ℚ) (rewards values next_values : List ℚ) (dones : List Bool)
    (i : ℕ)
    (h1 : dones.length = rewards.length)
    (h2 : values.length = rewards.length)
    (h3 : next_values.length = rewards.length)
    (hi : i < rewards.length)
    (_hs0 : 0 ≤ s)
    (_hstd : s * s = npVariance (rawAdvantages gamma rewards dones values next_values)) :
    (rawAdvantages gamma rewards dones values next_values).getD i 0 =
      rewards.getD i 0 + gamma * next_values.getD i 0 *
        (1 - (if dones.getD i false then 1 else 0)) - values.getD i 0 ∧
    (normalizeAdvantages s (rawAdvantages gamma rewards dones values next_values)).getD i 0 =
      ((rawAdvantages gamma rewards dones values next_values).getD i 0 -
        npMean (rawAdvantages gamma rewards dones values next_values)) /
        (s + 1 / 100000000) ∧
    ppoDefaultGamma = 99 / 100 := by
  have lM : (List.zipWith (fun nv d => gamma * nv * (1 - (if d then 1 else 0)))
      next_values dones).length = rewards.length := by
    rw [List.length_zipWith, h1, h3, min_self]
  have lL : (List.zipWith (fun r nv => r + nv) rewards
      (List.zipWith (fun nv d => gamma * nv * (1 - (if d then 1 else 0)))
        next_values dones)).length = rewards.length := by
    rw [List.length_zipWith, lM, min_self]
  have lA : (rawAdvantages gamma rewards dones values next_values).length =
      rewards.length := by
    rw [rawAdvantages, List.length_zipWith, lL, h2, min_self]
  refine ⟨?_, ?_, rfl⟩
  · rw [rawAdvantages,
      getD_zipWith _ _ _ i 0 0 0 (by rw [lL]; exact hi) (by rw [h2]; exact hi),
      getD_zipWith _ _ _ i 0 0 0 hi (by rw [lM]; exact hi),
      getD_zipWith _ _ _ i 0 false 0 (by rw [h3]; exact hi) (by rw [h1]; exact hi)]
  · rw [normalizeAdvantages, getD_map _ _ i 0 0 (by rw [lA]; exact hi)]

/-- Witness for claim C7 on a two-transition buffer with advantages
[1, 3]: the variance is 1, the std is 1, and the first normalized
advantage is (1 - 2) / (1 + 1e-8). -/
theorem claim_C7_witness :
    (rawAdvantages (99 / 100) [1, 3] [false, false] [0, 0] [0, 0]).getD 0 0 = 1 ∧
    (normalizeAdvantages 1
      (rawAdvantages (99 / 100) [1, 3] [false, false] [0, 0] [0, 0])).getD 0 0 =
      -(100000000 / 100000001) := by
  have h := claim_C7 (99 / 100) 1 [1, 3] [0, 0] [0, 0] [false, false] 0 rfl rfl rfl
    (by norm_num) (by norm_num)
    (by norm_num [rawAdvantages, npVariance, npMean, List.zipWith])
  constructor
  · rw [h.1]; norm_num
  · rw [h.2.1, h.1]
    norm_num [rawAdvantages, npMean, List.zipWith]

/-- Claim C9: once a state argument is present, the scoring entry points
always produce a result object; a parse failure, a model-load failure or a
scoring failure each yield the neutral fallback (0.50 per model for the
confidence scorer, -0.4 for the anomaly scorer), and only a fully
successful run returns the computed scores. -/
theorem claim_C9 {α β : Type} (l l2 : Bool)
    (sc : α → Except String ConfResult) (sa : β → Except String ℚ)
    (st : α) (cond : β) (e e2 : String) (r : ConfResult) (v : ℚ) :
    (confidenceMain (Except.error e : Except String α) l sc = confNeutral) ∧
    (confidenceMain (Except.ok st) false sc = confNeutral) ∧
    (sc st = Except.error e2 → confidenceMain (Except.ok st) true sc = confNeutral) ∧
    (sc st = Except.ok r → confidenceMain (Except.ok st) true sc = r) ∧
    (anomalyMain (Except.error e : Except String β) l2 sa = anomalyNeutral) ∧
    (anomalyMain (Except.ok cond) false sa = anomalyNeutral) ∧
    (sa cond = Except.error e2 → anomalyMain (Except.ok cond) true sa = anomalyNeutral) ∧
    (sa cond = Except.ok v → anomalyMain (Except.ok cond) true sa = v) := by
  refine ⟨rfl, rfl, ?_, ?_, rfl, rfl, ?_, ?_⟩
  · intro h; simp [confidenceMain, h]
  · intro h; simp [confidenceMain, h]
  · intro h; simp [anomalyMain, h]
  · intro h; simp [anomalyMain, h]

/-- Witness for claim C9: a successful confidence run returns its scores
and a failing anomaly run returns the -0.4 fallback. -/
theorem claim_C9_witness :
    confidenceMain (Except.ok 0 : Except String ℕ) true
      (fun _ => Except.ok ⟨1, 0, 0⟩) = (⟨1, 0, 0⟩ : ConfResult) ∧
    anomalyMain (Except.ok 0 : Except String ℕ) true
      (fun _ => Except.error "load") = anomalyNeutral := by
  have h := @claim_C9 ℕ ℕ true true (fun _ => Except.ok ⟨1, 0, 0⟩)
    (fun _ => Except.error "load") 0 0 "load" "load" ⟨1, 0, 0⟩ 0
  exact ⟨h.2.2.2.1 rfl, h.2.2.2.2.2.2.1 rfl⟩

end BinanceBot
